import Mathlib

/-!
Shallow embedding of the MinIO image-preview gallery client
(`src/App.tsx`).  Timestamps are modelled as natural numbers counting
milliseconds from a fixed local-midnight epoch, so that the local
calendar day of a timestamp `t` is `t / msPerDay`.  External effects
(HTTP responses to listing requests and HEAD probes) are passed in as
explicit data; React state updates become functions on an explicit
`AppState` record.
-/

namespace MinioGallery

/-- An entry of the bucket listing (`interface ObjectInfo` in the source):
an object key together with its last-modified timestamp. -/
structure ObjectInfo where
  key : String
  lastModified : Nat
deriving Repr, DecidableEq

/-- An enriched gallery record (`interface Image` in the source). -/
structure Image where
  key : String
  lastModified : Nat
  size : Nat
  contentType : String
deriving Repr, DecidableEq

/-- Milliseconds in a day; used to model local-midnight normalization. -/
def msPerDay : Nat := 86400000

/-- Page size (`batchSize` constant in the source). -/
def batchSize : Nat := 20

/-- Minimum retained file size in bytes (`minFileSize` constant). -/
def minFileSize : Nat := 10240

/-- Maximum simultaneous HEAD probes (`concurrentRequests` constant). -/
def concurrentRequests : Nat := 5

/-- Truncate a timestamp to local midnight (`normalizeDate` in the source,
which zeroes hours, minutes, seconds and milliseconds). -/
def normalizeDate (t : Nat) : Nat := t / msPerDay * msPerDay

/-- Same local calendar day (`areDatesEqual` in the source: equality of
year, month and day after normalization). -/
def areDatesEqual (t1 t2 : Nat) : Bool := t1 / msPerDay == t2 / msPerDay

/-- One HTTP response of the paginated bucket-listing loop.  `contents`
is the DOMParser outcome for the body: `none` models a `parsererror`
document, `some cs` the parsed `Contents` elements. -/
structure ListingResponse where
  ok : Bool
  status : Nat
  text : String
  contents : Option (List ObjectInfo)
  nextToken : Option String
deriving Repr, DecidableEq

/-- Whitespace predicate used to model JavaScript string trimming. -/
def isSpaceChar (c : Char) : Bool := c == ' ' || c == '\t' || c == '\n' || c == '\r'

/-- Trim of leading and trailing whitespace on a character list. -/
def jsTrim (l : List Char) : List Char :=
  ((l.dropWhile isSpaceChar).reverse.dropWhile isSpaceChar).reverse

/-- Prefix test on character lists (second argument is the candidate
prefix of the first). -/
def charsStartWith : List Char → List Char → Bool
  | _, [] => true
  | [], _ :: _ => false
  | a :: as, b :: bs => a == b && charsStartWith as bs

/-- Substring occurrence test on character lists. -/
def charsHasSub : List Char → List Char → Bool
  | [], sub => charsStartWith [] sub
  | a :: rest, sub => charsStartWith (a :: rest) sub || charsHasSub rest sub

/-- Substring test, modelling JavaScript `String.prototype.includes`. -/
def containsSub (s sub : String) : Bool := charsHasSub s.data sub.data

/-- HTML-page sniffing from `fetchObjects`: the body starts with an HTML
doctype after trimming, or contains an opening html tag. -/
def isHtmlPayload (text : String) : Bool :=
  charsStartWith (jsTrim text.data) ("<!DOCTYPE html>".data) || containsSub text "<html"

/-- Error message thrown when the listing body looks like HTML. -/
def htmlErrorMsg : String :=
  "Received HTML instead of XML. The bucket URL may be incorrect or serving the MinIO browser UI. Contact the bucket owner to confirm the S3 API endpoint (e.g., https://storage.algosol.ca/s3/social-cleaner-posts-img/)."

/-- Error message thrown when the listing body fails to parse as XML. -/
def parseErrorMsg : String :=
  "Failed to parse XML response. Ensure the bucket returns a valid object listing."

/-- Error message thrown when the accumulated object list is empty. -/
def emptyErrorMsg : String :=
  "No objects found in the bucket."

/-- Validation of one listing response, in source order: HTTP status,
HTML sniffing, XML parse; on success returns the parsed entries and the
continuation token. -/
def readPage (r : ListingResponse) : Except String (List ObjectInfo × Option String) :=
  if !r.ok then Except.error ("HTTP error: " ++ toString r.status)
  else if isHtmlPayload r.text then Except.error htmlErrorMsg
  else
    match r.contents with
    | none => Except.error parseErrorMsg
    | some cs => Except.ok (cs, r.nextToken)

/-- The do-while accumulation loop of `fetchObjects`: responses are
consumed in order while a continuation token is present; running out of
responses while a token is still pending models a failed fetch. -/
def accumulatePages : List ListingResponse → Except String (List ObjectInfo)
  | [] => Except.error "Network error: no response"
  | r :: rs =>
    match readPage r with
    | Except.error e => Except.error e
    | Except.ok (cs, none) => Except.ok cs
    | Except.ok (cs, some _) =>
      match accumulatePages rs with
      | Except.error e => Except.error e
      | Except.ok rest => Except.ok (cs ++ rest)

/-- Image-extension filter from `fetchObjects`
(the case-insensitive regex on jpg, jpeg, png, gif, webp). -/
def isImageKey (k : String) : Bool :=
  let lower := k.data.map Char.toLower
  ["jpg", "jpeg", "png", "gif", "webp"].any (fun ext =>
    charsStartWith lower.reverse (("." ++ ext).data.reverse))

/-- Ordering of the source sort callback on objects: newest first. -/
def objDesc (a b : ObjectInfo) : Prop := b.lastModified ≤ a.lastModified

instance : DecidableRel objDesc := fun a b => Nat.decLe b.lastModified a.lastModified

instance : IsTotal ObjectInfo objDesc :=
  ⟨fun a b => Nat.le_total b.lastModified a.lastModified⟩

instance : IsTrans ObjectInfo objDesc :=
  ⟨fun _ _ _ hab hbc => Nat.le_trans hbc hab⟩

/-- Descending order on dates. -/
def natDesc (a b : Nat) : Prop := b ≤ a

instance : DecidableRel natDesc := fun a b => Nat.decLe b a

/-- The stable sort by `lastModified` descending applied to the filtered
listing; JavaScript `Array.prototype.sort` is a stable sort, and a
stable sort for a total preorder has a unique result, here realised by
insertion sort. -/
def sortByLastModifiedDesc (l : List ObjectInfo) : List ObjectInfo :=
  l.insertionSort objDesc

/-- First-occurrence deduplication, modelling iteration of a `Set`. -/
def dedupAux (seen : List Nat) : List Nat → List Nat
  | [] => []
  | d :: rest => if seen.contains d then dedupAux seen rest else d :: dedupAux (d :: seen) rest

/-- Distinct normalized dates of the filtered listing, sorted descending
(`Set` deduplication keeps first occurrences; then sorted newest first). -/
def uniqueDatesOf (filtered : List ObjectInfo) : List Nat :=
  (dedupAux [] (filtered.map (fun o => normalizeDate o.lastModified))).insertionSort natDesc

/-- The pure core of `fetchObjects`: accumulate all listing pages, fail
if the raw list is empty, then filter to image keys, sort descending and
derive the unique dates. -/
def fetchObjects (pages : List ListingResponse) :
    Except String (List ObjectInfo × List Nat) :=
  match accumulatePages pages with
  | Except.error e => Except.error e
  | Except.ok objectList =>
    if objectList.length == 0 then Except.error emptyErrorMsg
    else
      let filteredObjects := sortByLastModifiedDesc (objectList.filter (fun o => isImageKey o.key))
      Except.ok (filteredObjects, uniqueDatesOf filteredObjects)

/-- Outcome of one HEAD probe: a network error (the `catch` path), or a
response with its `ok` flag and optional `Content-Length` and
`Content-Type` headers. -/
inductive ProbeResult where
  | networkError : ProbeResult
  | response (ok : Bool) (contentLength : Option Nat) (contentType : Option String) : ProbeResult
deriving Repr, DecidableEq

/-- The metadata cache (`metadataCache` ref): key-to-image entries, most
recent write first. -/
abbrev MetadataCache := List (String × Image)

/-- Cache lookup (`Map.get`): the most recent entry for the key wins. -/
def cacheGet (c : MetadataCache) (k : String) : Option Image :=
  Option.map Prod.snd (c.find? (fun e => e.1 == k))

/-- Result of `fetchMetadata` on a batch: the retained images in input
order, the keys that were warned about, and the updated cache. -/
structure MetadataResult where
  images : List Image
  warnings : List String
  cache : MetadataCache
deriving Repr, DecidableEq

/-- The `fetchMetadata` batch enricher.  Per record: consult the cache;
otherwise probe, warn and drop on failure (network error or non-ok
status), drop silently below the size floor, otherwise build the image,
cache it and retain it.  `probe` gives each key its HEAD outcome. -/
def fetchMetadata (cache : MetadataCache) (probe : String → ProbeResult) :
    List ObjectInfo → MetadataResult
  | [] => ⟨[], [], cache⟩
  | obj :: rest =>
    match cacheGet cache obj.key with
    | some cached =>
      let r := fetchMetadata cache probe rest
      ⟨cached :: r.images, r.warnings, r.cache⟩
    | none =>
      match probe obj.key with
      | ProbeResult.networkError =>
        let r := fetchMetadata cache probe rest
        ⟨r.images, obj.key :: r.warnings, r.cache⟩
      | ProbeResult.response ok contentLength contentType =>
        if !ok then
          let r := fetchMetadata cache probe rest
          ⟨r.images, obj.key :: r.warnings, r.cache⟩
        else
          let size := contentLength.getD 0
          if size < minFileSize then
            let r := fetchMetadata cache probe rest
            ⟨r.images, r.warnings, r.cache⟩
          else
            let image : Image := ⟨obj.key, obj.lastModified, size, contentType.getD "unknown"⟩
            let r := fetchMetadata ((obj.key, image) :: cache) probe rest
            ⟨image :: r.images, r.warnings, r.cache⟩

/-- The React state of the `App` component, restricted to the fields the
fetch, filter and paginate pipeline reads and writes. -/
structure AppState where
  objects : List ObjectInfo
  images : List Image
  displayedImages : List Image
  selectedDate : Option Nat
  uniqueDates : List Nat
  page : Nat
  hasMore : Bool
  loading : Bool
  error : Option String
  cache : MetadataCache
deriving Repr, DecidableEq

/-- Date filtering shared by the fetch effects: all objects when no date
is selected, else the records on the selected local day. -/
def filterByDate (objects : List ObjectInfo) (selectedDate : Option Nat) : List ObjectInfo :=
  match selectedDate with
  | some d => objects.filter (fun o => areDatesEqual o.lastModified (normalizeDate d))
  | none => objects

/-- CORS hint appended by the catch block of `fetchObjects`. -/
def corsHint (origin : String) : String :=
  ". Ensure the server is configured to allow CORS for " ++ origin ++ "."

/-- Error-message post-processing of the catch block of `fetchObjects`. -/
def catchMessage (origin msg : String) : String :=
  if containsSub msg "cors" || containsSub msg "fetch" then msg ++ corsHint origin else msg

/-- State update performed by `fetchObjects`: on success commit the
filtered sorted objects and the unique dates; on failure only record the
error message.  `origin` models `window.location.origin`. -/
def fetchObjectsUpdate (origin : String) (s : AppState) (pages : List ListingResponse) :
    AppState :=
  match fetchObjects pages with
  | Except.ok (objs, dates) =>
    { s with objects := objs, uniqueDates := dates, loading := false }
  | Except.error e =>
    { s with error := some (catchMessage origin e), loading := false }

/-- The synchronous head of the `selectedDate` effect: clear the display
window and the enriched collection, reset the page cursor to 1 and clear
the metadata cache. -/
def dateChangeReset (s : AppState) (newDate : Option Nat) : AppState :=
  { s with selectedDate := newDate, displayedImages := [], images := [],
           page := 1, cache := [] }

/-- The `fetchInitialImages` body: enrich the first page of the filtered
subset and set `hasMore` from the subset length. -/
def fetchInitialImages (probe : String → ProbeResult) (s : AppState) : AppState :=
  let objectsToDisplay := filterByDate s.objects s.selectedDate
  let initialObjects := objectsToDisplay.take batchSize
  let r := fetchMetadata s.cache probe initialObjects
  { s with images := r.images, displayedImages := r.images,
           hasMore := decide (objectsToDisplay.length > batchSize),
           cache := r.cache, loading := false }

/-- The `loadMoreImages` callback: guarded by `hasMore` and `loading`,
enrich the next slice of the filtered subset, append it, advance the
page cursor and recompute `hasMore`. -/
def loadMoreImages (probe : String → ProbeResult) (s : AppState) : AppState :=
  if !s.hasMore || s.loading then s
  else
    let nextPage := s.page + 1
    let startIndex := s.page * batchSize
    let endIndex := nextPage * batchSize
    let objectsToDisplay := filterByDate s.objects s.selectedDate
    let nextObjects := (objectsToDisplay.drop startIndex).take (endIndex - startIndex)
    let r := fetchMetadata s.cache probe nextObjects
    { s with images := s.images ++ r.images,
             displayedImages := s.displayedImages ++ r.images,
             page := nextPage,
             hasMore := decide (endIndex < objectsToDisplay.length),
             cache := r.cache, loading := false }

/-- Date navigation flag (`hasNextDate` in the source): with a selected
date, next is allowed unless it is today; with no date selected, false. -/
def hasNextDate (selectedDate : Option Nat) (now : Nat) : Bool :=
  match selectedDate with
  | some d => !areDatesEqual d now
  | none => false

/-- Date navigation flag `hasPreviousDate`, a constant in the source. -/
def hasPreviousDate : Bool := true

/-- The initial component state: all collections empty, the selected
date defaulted to the current day, page 1, loading. -/
def initialState (now : Nat) : AppState :=
  { objects := [], images := [], displayedImages := [], selectedDate := some now,
    uniqueDates := [], page := 1, hasMore := true, loading := true,
    error := none, cache := [] }

/-- The Clear button handler: select the current day (not the all-dates
state). -/
def clearDateFilter (now : Nat) (s : AppState) : AppState :=
  { s with selectedDate := some now }

/-! ## Basic date lemmas -/

/-- Normalizing a timestamp does not change its local calendar day. -/
lemma normalizeDate_day (u : Nat) : normalizeDate u / msPerDay = u / msPerDay := by
  unfold normalizeDate
  exact Nat.mul_div_cancel (u / msPerDay) (by decide)

/-- Day equality is insensitive to normalizing the second argument. -/
lemma areDatesEqual_normalize (t u : Nat) :
    areDatesEqual t (normalizeDate u) = areDatesEqual t u := by
  unfold areDatesEqual
  rw [normalizeDate_day]

/-! ## Claim C1: the date-navigation flag -/

/-- Claim C1, as stated, is false: it asserts that `hasNextDate` is
false exactly when the selected date equals the current local day, and
in particular that it is true in the all-dates (no selected date) case;
but with no selected date the source sets `hasNextDate` to false even
though no date is selected, hence none equals the current day. -/
theorem C1_counterexample :
    ¬ ((hasNextDate none 0 = false) ↔
        ∃ d, (none : Option Nat) = some d ∧ areDatesEqual d 0 = true) := by
  intro h
  rcases h.mp rfl with ⟨d, hd, _⟩
  exact Option.noConfusion hd

/-- Claim C1 amended: `hasNextDate` is false exactly when the selected
date is absent (all-dates) or equals the current local day; with a date
selected it is true unless that date is the current local day. -/
theorem C1_hasNextDate_false_iff (sd : Option Nat) (now : Nat) :
    hasNextDate sd now = false ↔
      (sd = none ∨ ∃ d, sd = some d ∧ areDatesEqual d now = true) := by
  cases sd with
  | none => simp [hasNextDate]
  | some d => simp [hasNextDate]

/-! ## Claim C6: the date-change reset -/

/-- Sample enriched record used for concrete counterexamples. -/
def sampleImage : Image := ⟨"a.jpg", 5, 20000, "image/jpeg"⟩

/-- Sample populated state used for concrete counterexamples. -/
def sampleState : AppState :=
  { objects := [⟨"a.jpg", 5⟩], images := [sampleImage],
    displayedImages := [sampleImage], selectedDate := some 5,
    uniqueDates := [0], page := 2, hasMore := false, loading := false,
    error := none, cache := [("a.jpg", sampleImage)] }

/-- Claim C6, as stated, is false: changing the selected date does clear
the display window, reset the page and clear the cache, but it does not
leave the enriched collection untouched — the `images` state is cleared
too; only the raw object listing survives. -/
theorem C6_counterexample :
    (dateChangeReset sampleState none).objects = sampleState.objects ∧
    (dateChangeReset sampleState none).images ≠ sampleState.images := by
  decide

/-- Claim C6 amended: changing the selected date resets the page cursor
to 1, clears the metadata cache, clears the display window and also
clears the enriched collection, while the raw fetched-and-filtered
object listing and the derived date set are left unchanged. -/
theorem C6_reset_frame (s : AppState) (d : Option Nat) :
    (dateChangeReset s d).page = 1 ∧
    (dateChangeReset s d).cache = [] ∧
    (dateChangeReset s d).displayedImages = [] ∧
    (dateChangeReset s d).images = [] ∧
    (dateChangeReset s d).selectedDate = d ∧
    (dateChangeReset s d).objects = s.objects ∧
    (dateChangeReset s d).uniqueDates = s.uniqueDates ∧
    (dateChangeReset s d).error = s.error ∧
    (dateChangeReset s d).hasMore = s.hasMore :=
  ⟨rfl, rfl, rfl, rfl, rfl, rfl, rfl, rfl, rfl⟩

/-! ## Claim C7: the empty-result error -/

/-- A well-formed listing response whose only object is not image-like. -/
def nonImageListing : ListingResponse :=
  ⟨true, 200, "<ListBucketResult>", some [⟨"readme.txt", 0⟩], none⟩

/-- Claim C7, as stated, is false: a listing that succeeds with one
non-image object yields zero qualifying images, yet the load commits an
empty gallery instead of failing — the emptiness check runs on the raw
object list before the extension filter. -/
theorem C7_counterexample :
    fetchObjects [nonImageListing] = Except.ok ([], []) ∧
    ([(⟨"readme.txt", 0⟩ : ObjectInfo)].filter (fun o => isImageKey o.key)) = [] :=
  ⟨rfl, by decide⟩

/-- Claim C7 amended: the empty-result error is raised exactly when the
raw accumulated listing is empty, before extension filtering; any
successful listing with at least one object (image-like or not) commits
the filtered, sorted gallery without raising it. -/
theorem C7_empty_error_iff_raw_empty (pages : List ListingResponse)
    (objs : List ObjectInfo) (hacc : accumulatePages pages = Except.ok objs) :
    (fetchObjects pages = Except.error emptyErrorMsg ↔ objs = []) ∧
    (objs ≠ [] →
      fetchObjects pages = Except.ok
        (sortByLastModifiedDesc (objs.filter (fun o => isImageKey o.key)),
         uniqueDatesOf (sortByLastModifiedDesc (objs.filter (fun o => isImageKey o.key))))) := by
  unfold fetchObjects
  rw [hacc]
  rcases objs with _ | ⟨o, rest⟩
  · simp
  · simp

/-- Witness for the amended claim C7: a successful listing whose parsed
content is empty raises the empty-result error. -/
theorem C7_empty_error_witness :
    fetchObjects [(⟨true, 200, "<ListBucketResult>", some [], none⟩ : ListingResponse)] =
      Except.error emptyErrorMsg :=
  ((C7_empty_error_iff_raw_empty
      [(⟨true, 200, "<ListBucketResult>", some [], none⟩ : ListingResponse)] [] rfl).1).mpr rfl

/-! ## Claim C10: today as the default and Clear target -/

/-- Claim C10: at startup the selected date is the current day (not the
all-dates state), the Clear action re-selects the current day rather
than clearing to all dates, and the subset filtered to the current day
only contains records whose timestamp falls on that local day. -/
theorem C10_default_today (now : Nat) (s : AppState) (objects : List ObjectInfo) :
    (initialState now).selectedDate = some now ∧
    (clearDateFilter now s).selectedDate = some now ∧
    ∀ o ∈ filterByDate objects (some now), areDatesEqual o.lastModified now = true := by
  refine ⟨rfl, rfl, ?_⟩
  intro o ho
  have hmem := List.mem_filter.mp ho
  rw [← areDatesEqual_normalize o.lastModified now]
  exact hmem.2

/-- Witness for claim C10 at concrete inputs: startup and Clear select
day zero, and a record on day zero survives the day-zero filter with an
equal calendar day. -/
theorem C10_default_today_witness :
    (initialState 0).selectedDate = some 0 ∧
    (clearDateFilter 0 sampleState).selectedDate = some 0 ∧
    areDatesEqual (5 : Nat) 0 = true :=
  ⟨(C10_default_today 0 sampleState [⟨"a.jpg", 5⟩]).1,
   (C10_default_today 0 sampleState [⟨"a.jpg", 5⟩]).2.1,
   (C10_default_today 0 sampleState [⟨"a.jpg", 5⟩]).2.2 ⟨"a.jpg", 5⟩ (by decide)⟩

/-! ## Claim C2: the hasMore flag -/

/-- Claim C2: after loading a page, `hasMore` is true exactly when the
page number times the page size is below the length of the filtered
subset.  The initial load (page 1) sets it from `length > batchSize`,
and every subsequent load to page `n + 1` sets it from
`(n + 1) * batchSize < length`; both agree with the claimed formula. -/
theorem C2_hasMore_iff (probe : String → ProbeResult) (s : AppState) :
    ((fetchInitialImages probe s).hasMore = true ↔
      1 * batchSize < (filterByDate s.objects s.selectedDate).length) ∧
    (s.hasMore = true → s.loading = false →
      (loadMoreImages probe s).page = s.page + 1 ∧
      ((loadMoreImages probe s).hasMore = true ↔
        (s.page + 1) * batchSize < (filterByDate s.objects s.selectedDate).length)) := by
  constructor
  · simp [fetchInitialImages]
  · intro hm hl
    simp only [loadMoreImages, hm, hl, Bool.not_true, Bool.false_or, if_neg Bool.false_ne_true]
    simp

/-- A minimal paging state: given objects, a selected date and a page
number, ready for a further load. -/
def pagingState (objects : List ObjectInfo) (sd : Option Nat) (pg : Nat) : AppState :=
  { objects := objects, images := [], displayedImages := [], selectedDate := sd,
    uniqueDates := [], page := pg, hasMore := true, loading := false,
    error := none, cache := [] }

/-- A probe that always succeeds with a size above the floor. -/
def probeAll : String → ProbeResult :=
  fun _ => ProbeResult.response true (some 20000) (some "image/jpeg")

/-- Twenty qualifying objects on local day 0. -/
def day0Objects : List ObjectInfo :=
  (List.range 20).map (fun i => ⟨"a" ++ toString i ++ ".jpg", i⟩)

/-- Fifteen qualifying objects on local day 1. -/
def day1Objects : List ObjectInfo :=
  (List.range 15).map (fun i => ⟨"b" ++ toString i ++ ".jpg", msPerDay + i⟩)

/-- Ten qualifying objects on local day 2. -/
def day2Objects : List ObjectInfo :=
  (List.range 10).map (fun i => ⟨"c" ++ toString i ++ ".jpg", 2 * msPerDay + i⟩)

/-- The 45-image scenario of the claim: 20 on day A, 15 on day B, 10 on
day C. -/
def gallery45 : List ObjectInfo := day0Objects ++ day1Objects ++ day2Objects

/-- Witness for claim C2 on the 45-image scenario: selecting day A gives
no more pages after the first load (20 of 20); selecting all dates gives
more after page 1 (20 of 45) and no more after loading page 3 (60 is
not below 45). -/
theorem C2_hasMore_iff_witness :
    (fetchInitialImages probeAll (pagingState gallery45 (some 0) 1)).hasMore = false ∧
    (fetchInitialImages probeAll (pagingState gallery45 none 1)).hasMore = true ∧
    (loadMoreImages probeAll (pagingState gallery45 none 2)).page = 3 ∧
    (loadMoreImages probeAll (pagingState gallery45 none 2)).hasMore = false := by
  have h3 := (C2_hasMore_iff probeAll (pagingState gallery45 none 2)).2 rfl rfl
  exact ⟨by decide, by decide, h3.1, by decide⟩

/-! ## Metadata cache lemmas -/

/-- An image returned by a cache hit is stored in the cache. -/
lemma cacheGet_mem {c : MetadataCache} {k : String} {img : Image}
    (h : cacheGet c k = some img) : ∃ e ∈ c, e.2 = img := by
  unfold cacheGet at h
  cases hf : c.find? (fun e => e.1 == k) with
  | none => rw [hf] at h; cases h
  | some e =>
    rw [hf] at h
    exact ⟨e, List.mem_of_find?_eq_some hf, by simpa using h⟩

/-- Cache lookup after a write: the new entry shadows the rest. -/
lemma cacheGet_cons (k : String) (img : Image) (c : MetadataCache) (k2 : String) :
    cacheGet ((k, img) :: c) k2 =
      if (k == k2) = true then some img else cacheGet c k2 := by
  unfold cacheGet
  by_cases h : (k == k2) = true
  · rw [List.find?_cons_of_pos _ (by simpa using h)]
    simp [h]
  · rw [List.find?_cons_of_neg _ (by simpa using h)]
    simp [h]

/-! ## Claim C4: the minimum-size floor -/

/-- Core size-floor invariant of `fetchMetadata`: if every cached image
meets the floor then every retained image and every cache entry after a
batch meets the floor. -/
lemma fetchMetadata_size_floor (probe : String → ProbeResult) (objs : List ObjectInfo) :
    ∀ cache : MetadataCache, (∀ e ∈ cache, minFileSize ≤ e.2.size) →
      (∀ img ∈ (fetchMetadata cache probe objs).images, minFileSize ≤ img.size) ∧
      (∀ e ∈ (fetchMetadata cache probe objs).cache, minFileSize ≤ e.2.size) := by
  induction objs with
  | nil =>
    intro cache hc
    exact ⟨fun img h => by simp [fetchMetadata] at h, fun e he => hc e he⟩
  | cons obj rest ih =>
    intro cache hc
    simp only [fetchMetadata]
    cases hcg : cacheGet cache obj.key with
    | some cached =>
      obtain ⟨e, hec, hei⟩ := cacheGet_mem hcg
      have hrec := ih cache hc
      refine ⟨?_, hrec.2⟩
      intro img hmem
      rcases List.mem_cons.mp hmem with h | h
      · rw [h, ← hei]; exact hc e hec
      · exact hrec.1 img h
    | none =>
      cases hp : probe obj.key with
      | networkError => exact ih cache hc
      | response ok contentLength contentType =>
        cases ok with
        | false => simpa using ih cache hc
        | true =>
          simp only [Bool.not_true, Bool.false_eq_true, if_false]
          by_cases hs : contentLength.getD 0 < minFileSize
          · simp only [if_pos hs]
            exact ih cache hc
          · simp only [if_neg hs]
            have hc2 : ∀ e ∈ ((obj.key,
                (⟨obj.key, obj.lastModified, contentLength.getD 0,
                  contentType.getD "unknown"⟩ : Image)) :: cache),
                minFileSize ≤ e.2.size := by
              intro e he
              rcases List.mem_cons.mp he with h | h
              · rw [h]; exact Nat.le_of_not_lt hs
              · exact hc e h
            have hrec := ih _ hc2
            refine ⟨?_, hrec.2⟩
            intro img hmem
            rcases List.mem_cons.mp hmem with h | h
            · rw [h]; exact Nat.le_of_not_lt hs
            · exact hrec.1 img h

/-- Claim C4: assuming every cached image and every already retained
image meets the 10240-byte floor, every image retained after an initial
load or a further page load — whether freshly probed or served from the
cache — still meets the floor, and so does every cache entry. -/
theorem C4_size_floor (probe : String → ProbeResult) (s : AppState)
    (hc : ∀ e ∈ s.cache, minFileSize ≤ e.2.size)
    (hi : ∀ img ∈ s.images, minFileSize ≤ img.size) :
    (∀ img ∈ (fetchInitialImages probe s).images, minFileSize ≤ img.size) ∧
    (∀ e ∈ (fetchInitialImages probe s).cache, minFileSize ≤ e.2.size) ∧
    (∀ img ∈ (loadMoreImages probe s).images, minFileSize ≤ img.size) ∧
    (∀ e ∈ (loadMoreImages probe s).cache, minFileSize ≤ e.2.size) := by
  have hInit := fetchMetadata_size_floor probe
    ((filterByDate s.objects s.selectedDate).take batchSize) s.cache hc
  have hLoad := fetchMetadata_size_floor probe
    (((filterByDate s.objects s.selectedDate).drop (s.page * batchSize)).take
      ((s.page + 1) * batchSize - s.page * batchSize)) s.cache hc
  refine ⟨?_, ?_, ?_, ?_⟩
  · intro img h
    exact hInit.1 img (by simpa [fetchInitialImages] using h)
  · intro e h
    exact hInit.2 e (by simpa [fetchInitialImages] using h)
  · intro img h
    by_cases hg : (!s.hasMore || s.loading) = true
    · rw [loadMoreImages, if_pos hg] at h
      exact hi img h
    · rw [loadMoreImages, if_neg hg] at h
      simp only at h
      rcases List.mem_append.mp h with h2 | h2
      · exact hi img h2
      · exact hLoad.1 img h2
  · intro e h
    by_cases hg : (!s.hasMore || s.loading) = true
    · rw [loadMoreImages, if_pos hg] at h
      exact hc e h
    · rw [loadMoreImages, if_neg hg] at h
      simp only at h
      exact hLoad.2 e h

/-- Witness for claim C4: a concrete image retained by a concrete
initial load meets the floor. -/
theorem C4_size_floor_witness :
    minFileSize ≤ (⟨"a0.jpg", 0, 20000, "image/jpeg"⟩ : Image).size :=
  (C4_size_floor probeAll (pagingState gallery45 (some 0) 1)
      (fun e he => by cases he) (fun img h => by cases h)).1
    ⟨"a0.jpg", 0, 20000, "image/jpeg"⟩ (by decide)

/-! ## Claim C5: per-item failure tolerance -/

/-- Whether the HEAD probe of a record fails (network error or non-ok
status); exactly these failures are warned about and dropped. -/
def probeFailed (probe : String → ProbeResult) (obj : ObjectInfo) : Bool :=
  match probe obj.key with
  | ProbeResult.networkError => true
  | ProbeResult.response ok _ _ => !ok

/-- Byte size reported by a record's probe (0 when the header is absent). -/
def probedSize (probe : String → ProbeResult) (obj : ObjectInfo) : Nat :=
  match probe obj.key with
  | ProbeResult.networkError => 0
  | ProbeResult.response _ contentLength _ => contentLength.getD 0

/-- Content type reported by a record's probe. -/
def probedType (probe : String → ProbeResult) (obj : ObjectInfo) : String :=
  match probe obj.key with
  | ProbeResult.networkError => "unknown"
  | ProbeResult.response _ _ contentType => contentType.getD "unknown"

/-- The image a successful probe of a record produces. -/
def enrichedImage (probe : String → ProbeResult) (obj : ObjectInfo) : Image :=
  ⟨obj.key, obj.lastModified, probedSize probe obj, probedType probe obj⟩

/-- Claim C5: on a batch of fresh candidates (no cache hits, distinct
keys) whose successful probes all meet the size floor, the batch never
aborts — the result retains exactly the records whose probe succeeded,
in order, and warns exactly about the keys whose probe failed. -/
theorem C5_partial_failure (probe : String → ProbeResult) (objs : List ObjectInfo) :
    ∀ cache : MetadataCache,
      (∀ o ∈ objs, cacheGet cache o.key = none) →
      (objs.map ObjectInfo.key).Nodup →
      (∀ o ∈ objs, probeFailed probe o = false → minFileSize ≤ probedSize probe o) →
      (fetchMetadata cache probe objs).images =
        (objs.filter (fun o => !probeFailed probe o)).map (enrichedImage probe) ∧
      (fetchMetadata cache probe objs).warnings =
        (objs.filter (fun o => probeFailed probe o)).map ObjectInfo.key := by
  induction objs with
  | nil => intro cache _ _ _; exact ⟨rfl, rfl⟩
  | cons obj rest ih =>
    intro cache hdisj hkeys hfloor
    have hobj : cacheGet cache obj.key = none := hdisj obj (List.mem_cons_self _ _)
    have hkeys2 : (rest.map ObjectInfo.key).Nodup := by
      rw [List.map_cons, List.nodup_cons] at hkeys
      exact hkeys.2
    have hnotin : obj.key ∉ rest.map ObjectInfo.key := by
      rw [List.map_cons, List.nodup_cons] at hkeys
      exact hkeys.1
    have hfloor2 : ∀ o ∈ rest, probeFailed probe o = false →
        minFileSize ≤ probedSize probe o :=
      fun o ho h => hfloor o (List.mem_cons_of_mem _ ho) h
    simp only [fetchMetadata, hobj]
    cases hp : probe obj.key with
    | networkError =>
      have hfail : probeFailed probe obj = true := by simp [probeFailed, hp]
      have hrec := ih cache (fun o ho => hdisj o (List.mem_cons_of_mem _ ho)) hkeys2 hfloor2
      simp [List.filter_cons, hfail, hrec.1, hrec.2]
    | response ok contentLength contentType =>
      cases ok with
      | false =>
        have hfail : probeFailed probe obj = true := by simp [probeFailed, hp]
        have hrec := ih cache (fun o ho => hdisj o (List.mem_cons_of_mem _ ho)) hkeys2 hfloor2
        simp [List.filter_cons, hfail, hrec.1, hrec.2]
      | true =>
        have hfail : probeFailed probe obj = false := by simp [probeFailed, hp]
        have hsz : minFileSize ≤ contentLength.getD 0 := by
          have := hfloor obj (List.mem_cons_self _ _) hfail
          simpa [probedSize, hp] using this
        have hnlt : ¬ (contentLength.getD 0 < minFileSize) := Nat.not_lt.mpr hsz
        have hdisj2 : ∀ o ∈ rest,
            cacheGet ((obj.key,
              (⟨obj.key, obj.lastModified, contentLength.getD 0,
                contentType.getD "unknown"⟩ : Image)) :: cache) o.key = none := by
          intro o ho
          rw [cacheGet_cons]
          have hne : (obj.key == o.key) = false := by
            refine beq_eq_false_iff_ne.mpr ?_
            intro hk
            exact hnotin (hk ▸ List.mem_map_of_mem ObjectInfo.key ho)
          rw [if_neg (by simp [hne])]
          exact hdisj o (List.mem_cons_of_mem _ ho)
        have hrec := ih _ hdisj2 hkeys2 hfloor2
        have himg : (⟨obj.key, obj.lastModified, contentLength.getD 0,
            contentType.getD "unknown"⟩ : Image) = enrichedImage probe obj := by
          simp [enrichedImage, probedSize, probedType, hp]
        rw [himg] at hrec
        simp only [Bool.not_true, Bool.false_eq_true, if_false, if_neg hnlt]
        simp [List.filter_cons, hfail, hrec.1, hrec.2, himg]

/-- The ten candidates of the claim scenario. -/
def candObjects : List ObjectInfo :=
  (List.range 10).map (fun i => ⟨"k" ++ toString i ++ ".jpg", i⟩)

/-- A probe under which exactly two of the candidates fail with a
network error. -/
def probeTwoFail : String → ProbeResult := fun k =>
  if k == "k3.jpg" || k == "k7.jpg" then ProbeResult.networkError
  else ProbeResult.response true (some 20000) (some "image/jpeg")

/-- Witness for claim C5: of 10 candidates with 2 failing probes, the
result has exactly the 8 successful records and one warning per failed
key. -/
theorem C5_partial_failure_witness :
    (fetchMetadata [] probeTwoFail candObjects).images.length = 8 ∧
    (fetchMetadata [] probeTwoFail candObjects).warnings = ["k3.jpg", "k7.jpg"] := by
  have h := C5_partial_failure probeTwoFail candObjects []
    (fun o _ => rfl) (by decide) (by decide)
  rw [h.1, h.2]
  decide

/-! ## Claim C3: format errors fail fast without committing state -/

/-- A listing page that passes every validation and carries a
continuation token, so the accumulation loop proceeds past it. -/
def pageOkWithToken (r : ListingResponse) : Prop :=
  r.ok = true ∧ isHtmlPayload r.text = false ∧
    (∃ cs, r.contents = some cs) ∧ (∃ t, r.nextToken = some t)

/-- If every earlier page validates and continues, a failing page makes
the whole accumulation fail with that page's error. -/
lemma accumulatePages_append_error (prefixPages : List ListingResponse)
    (hpre : ∀ p ∈ prefixPages, pageOkWithToken p)
    (r : ListingResponse) (rest : List ListingResponse) (e : String)
    (hr : readPage r = Except.error e) :
    accumulatePages (prefixPages ++ r :: rest) = Except.error e := by
  induction prefixPages with
  | nil => simp [accumulatePages, hr]
  | cons p ps ih =>
    obtain ⟨hok, hhtml, ⟨cs, hcs⟩, ⟨t, ht⟩⟩ := hpre p (List.mem_cons_self _ _)
    have hp : readPage p = Except.ok (cs, some t) := by
      simp [readPage, hok, hhtml, hcs, ht]
    have hacc := ih (fun q hq => hpre q (List.mem_cons_of_mem _ hq))
    simp [accumulatePages, hp, hacc]

/-- Claim C3: when a listing page that is actually reached is either an
HTML browser page or unparseable XML, the load fails with the matching
descriptive format-error message and no partial gallery state is
committed: objects, dates, images, display window, page cursor and
cache after the failed load all equal their values before it. -/
theorem C3_format_error_no_commit (origin : String) (s : AppState)
    (prefixPages : List ListingResponse) (r : ListingResponse)
    (rest : List ListingResponse)
    (hpre : ∀ p ∈ prefixPages, pageOkWithToken p)
    (hok : r.ok = true)
    (hbad : isHtmlPayload r.text = true ∨ r.contents = none) :
    (fetchObjectsUpdate origin s (prefixPages ++ r :: rest)).objects = s.objects ∧
    (fetchObjectsUpdate origin s (prefixPages ++ r :: rest)).uniqueDates = s.uniqueDates ∧
    (fetchObjectsUpdate origin s (prefixPages ++ r :: rest)).images = s.images ∧
    (fetchObjectsUpdate origin s (prefixPages ++ r :: rest)).displayedImages =
      s.displayedImages ∧
    (fetchObjectsUpdate origin s (prefixPages ++ r :: rest)).page = s.page ∧
    (fetchObjectsUpdate origin s (prefixPages ++ r :: rest)).cache = s.cache ∧
    ((fetchObjectsUpdate origin s (prefixPages ++ r :: rest)).error = some htmlErrorMsg ∨
     (fetchObjectsUpdate origin s (prefixPages ++ r :: rest)).error = some parseErrorMsg) := by
  have hr : readPage r = Except.error htmlErrorMsg ∨
      readPage r = Except.error parseErrorMsg := by
    by_cases hh : isHtmlPayload r.text = true
    · left
      simp [readPage, hok, hh]
    · right
      rcases hbad with h | h
      · exact absurd h hh
      · simp [readPage, hok, h, Bool.eq_false_iff.mpr hh]
  have hcors_html : catchMessage origin htmlErrorMsg = htmlErrorMsg := by
    have h1 : containsSub htmlErrorMsg "cors" = false := by decide
    have h2 : containsSub htmlErrorMsg "fetch" = false := by decide
    simp [catchMessage, h1, h2]
  have hcors_parse : catchMessage origin parseErrorMsg = parseErrorMsg := by
    have h1 : containsSub parseErrorMsg "cors" = false := by decide
    have h2 : containsSub parseErrorMsg "fetch" = false := by decide
    simp [catchMessage, h1, h2]
  rcases hr with he | he
  · have hacc := accumulatePages_append_error prefixPages hpre r rest _ he
    simp [fetchObjectsUpdate, fetchObjects, hacc, hcors_html]
  · have hacc := accumulatePages_append_error prefixPages hpre r rest _ he
    simp [fetchObjectsUpdate, fetchObjects, hacc, hcors_parse]

/-- Witness for claim C3: a first listing page whose body is an HTML
document leaves a concrete populated state untouched and surfaces a
format error. -/
theorem C3_format_error_witness :
    (fetchObjectsUpdate "http://localhost" sampleState
        [(⟨true, 200, "<html><body>console</body></html>", none, none⟩ :
          ListingResponse)]).objects = sampleState.objects ∧
    ((fetchObjectsUpdate "http://localhost" sampleState
        [(⟨true, 200, "<html><body>console</body></html>", none, none⟩ :
          ListingResponse)]).error = some htmlErrorMsg ∨
     (fetchObjectsUpdate "http://localhost" sampleState
        [(⟨true, 200, "<html><body>console</body></html>", none, none⟩ :
          ListingResponse)]).error = some parseErrorMsg) :=
  ⟨(C3_format_error_no_commit "http://localhost" sampleState []
      (⟨true, 200, "<html><body>console</body></html>", none, none⟩ : ListingResponse) []
      (fun p hp => absurd hp (List.not_mem_nil p)) rfl (Or.inl (by decide))).1,
   (C3_format_error_no_commit "http://localhost" sampleState []
      (⟨true, 200, "<html><body>console</body></html>", none, none⟩ : ListingResponse) []
      (fun p hp => absurd hp (List.not_mem_nil p)) rfl (Or.inl (by decide))).2.2.2.2.2.2⟩

/-! ## Claim C8: the descending-sort invariant -/

/-- Descending order on enriched records. -/
def imageDesc (a b : Image) : Prop := b.lastModified ≤ a.lastModified

/-- A listing sorted by `lastModified` descending (adjacent-pairs form). -/
def objectsSorted (l : List ObjectInfo) : Prop := l.Pairwise objDesc

/-- An enriched collection sorted by `lastModified` descending. -/
def imagesSorted (l : List Image) : Prop := l.Pairwise imageDesc

/-- The cache agrees with a listing: a cached image for a key carries
the same `lastModified` as any listed record with that key. -/
def cacheAgrees (cache : MetadataCache) (objs : List ObjectInfo) : Prop :=
  ∀ k img, cacheGet cache k = some img →
    ∀ o ∈ objs, o.key = k → img.lastModified = o.lastModified

/-- Keys determine timestamps within a listing (records are unique by
key up to their timestamp). -/
def keyDet (objs : List ObjectInfo) : Prop :=
  ∀ o ∈ objs, ∀ o2 ∈ objs, o.key = o2.key → o.lastModified = o2.lastModified

/-- The empty cache agrees with any listing. -/
lemma cacheAgrees_nil (objs : List ObjectInfo) : cacheAgrees [] objs := by
  intro k img h
  simp [cacheGet] at h

/-- The timestamps of a batch's retained images form a subsequence of
the batch's timestamps, provided the cache agrees with the batch and
keys determine timestamps in it. -/
lemma fetchMetadata_lm_sublist (probe : String → ProbeResult) (objs : List ObjectInfo) :
    ∀ cache : MetadataCache, cacheAgrees cache objs → keyDet objs →
      ((fetchMetadata cache probe objs).images.map Image.lastModified).Sublist
        (objs.map ObjectInfo.lastModified) := by
  induction objs with
  | nil =>
    intro cache _ _
    simp [fetchMetadata]
  | cons obj rest ih =>
    intro cache hag hkd
    have hkd2 : keyDet rest := fun o ho o2 ho2 h =>
      hkd o (List.mem_cons_of_mem _ ho) o2 (List.mem_cons_of_mem _ ho2) h
    have hag2 : cacheAgrees cache rest := fun k img h o ho hk =>
      hag k img h o (List.mem_cons_of_mem _ ho) hk
    simp only [fetchMetadata]
    cases hcg : cacheGet cache obj.key with
    | some cached =>
      have hlm : cached.lastModified = obj.lastModified :=
        hag obj.key cached hcg obj (List.mem_cons_self _ _) rfl
      simp only [List.map_cons]
      rw [hlm]
      exact (ih cache hag2 hkd2).cons₂ _
    | none =>
      cases hp : probe obj.key with
      | networkError =>
        exact (ih cache hag2 hkd2).cons _
      | response ok contentLength contentType =>
        cases ok with
        | false =>
          exact (ih cache hag2 hkd2).cons _
        | true =>
          by_cases hs : contentLength.getD 0 < minFileSize
          · simp only [Bool.not_true, Bool.false_eq_true, if_false, if_pos hs]
            exact (ih cache hag2 hkd2).cons _
          · simp only [Bool.not_true, Bool.false_eq_true, if_false, if_neg hs]
            have hag3 : cacheAgrees ((obj.key,
                (⟨obj.key, obj.lastModified, contentLength.getD 0,
                  contentType.getD "unknown"⟩ : Image)) :: cache) rest := by
              intro k img hlook o ho hk
              rw [cacheGet_cons] at hlook
              by_cases hkk : (obj.key == k) = true
              · rw [if_pos (by simp [hkk])] at hlook
                cases hlook
                exact hkd obj (List.mem_cons_self _ _) o (List.mem_cons_of_mem _ ho)
                  ((beq_iff_eq.mp hkk).trans hk.symm)
              · rw [if_neg (by simp [hkk])] at hlook
                exact hag k img hlook o (List.mem_cons_of_mem _ ho) hk
            simp only [List.map_cons]
            exact (ih _ hag3 hkd2).cons₂ _

/-- Enriching a sub-batch of a listing preserves cache agreement with
the whole listing. -/
lemma fetchMetadata_cacheAgrees (probe : String → ProbeResult)
    (allObjs : List ObjectInfo) (objs : List ObjectInfo) :
    ∀ cache : MetadataCache, (∀ o ∈ objs, o ∈ allObjs) →
      cacheAgrees cache allObjs → keyDet allObjs →
      cacheAgrees (fetchMetadata cache probe objs).cache allObjs := by
  induction objs with
  | nil =>
    intro cache _ hag _
    simpa [fetchMetadata] using hag
  | cons obj rest ih =>
    intro cache hsub hag hkd
    have hsub2 : ∀ o ∈ rest, o ∈ allObjs := fun o ho => hsub o (List.mem_cons_of_mem _ ho)
    simp only [fetchMetadata]
    cases hcg : cacheGet cache obj.key with
    | some cached => exact ih cache hsub2 hag hkd
    | none =>
      cases hp : probe obj.key with
      | networkError => exact ih cache hsub2 hag hkd
      | response ok contentLength contentType =>
        cases ok with
        | false => exact ih cache hsub2 hag hkd
        | true =>
          by_cases hs : contentLength.getD 0 < minFileSize
          · simp only [Bool.not_true, Bool.false_eq_true, if_false, if_pos hs]
            exact ih cache hsub2 hag hkd
          · simp only [Bool.not_true, Bool.false_eq_true, if_false, if_neg hs]
            refine ih _ hsub2 ?_ hkd
            intro k img hlook o ho hk
            rw [cacheGet_cons] at hlook
            by_cases hkk : (obj.key == k) = true
            · rw [if_pos (by simp [hkk])] at hlook
              cases hlook
              exact hkd obj (hsub obj (List.mem_cons_self _ _)) o ho
                ((beq_iff_eq.mp hkk).trans hk.symm)
            · rw [if_neg (by simp [hkk])] at hlook
              exact hag k img hlook o ho hk

/-- Date filtering preserves descending sortedness. -/
lemma filterByDate_sorted (l : List ObjectInfo) (sd : Option Nat)
    (h : objectsSorted l) : objectsSorted (filterByDate l sd) := by
  cases sd with
  | none => exact h
  | some d => exact h.filter _

/-- Core append step: enriching the slice of a sorted filtered listing
starting at `start` and appending it to previously retained images
keeps the collection sorted and keeps every retained image at least as
recent as everything beyond the freshly consumed slice. -/
lemma append_slice_sorted (probe : String → ProbeResult) (filtered : List ObjectInfo)
    (cache : MetadataCache) (prevImages : List Image) (start : Nat)
    (hfs : objectsSorted filtered)
    (hkd : keyDet filtered)
    (hag : cacheAgrees cache filtered)
    (hsortedPrev : imagesSorted prevImages)
    (hdomPrev : ∀ a ∈ prevImages, ∀ o ∈ filtered.drop start,
      o.lastModified ≤ a.lastModified) :
    imagesSorted (prevImages ++
      (fetchMetadata cache probe ((filtered.drop start).take batchSize)).images) ∧
    (∀ a ∈ prevImages ++
        (fetchMetadata cache probe ((filtered.drop start).take batchSize)).images,
      ∀ o ∈ filtered.drop (start + batchSize), o.lastModified ≤ a.lastModified) := by
  have hslsub : ((filtered.drop start).take batchSize).Sublist filtered :=
    (List.take_sublist _ _).trans (List.drop_sublist _ _)
  have hslmem : ∀ o ∈ (filtered.drop start).take batchSize, o ∈ filtered :=
    fun o ho => hslsub.subset ho
  have hkds : keyDet ((filtered.drop start).take batchSize) :=
    fun o ho o2 ho2 h => hkd o (hslmem o ho) o2 (hslmem o2 ho2) h
  have hags : cacheAgrees cache ((filtered.drop start).take batchSize) :=
    fun k img h o ho hk => hag k img h o (hslmem o ho) hk
  have hsl := fetchMetadata_lm_sublist probe ((filtered.drop start).take batchSize)
    cache hags hkds
  have hflm : (filtered.map ObjectInfo.lastModified).Pairwise (fun a b => b ≤ a) :=
    List.pairwise_map.mpr hfs
  have hrs : imagesSorted
      (fetchMetadata cache probe ((filtered.drop start).take batchSize)).images := by
    have h1 := List.Pairwise.sublist (hsl.trans (hslsub.map _)) hflm
    exact (@List.pairwise_map _ _ Image.lastModified (fun a b => b ≤ a) _).mp h1
  have hmemlm : ∀ b ∈ (fetchMetadata cache probe
        ((filtered.drop start).take batchSize)).images,
      ∃ o ∈ (filtered.drop start).take batchSize,
        o.lastModified = b.lastModified := by
    intro b hb
    have hmm : b.lastModified ∈
        ((filtered.drop start).take batchSize).map ObjectInfo.lastModified :=
      hsl.subset (List.mem_map.mpr ⟨b, hb, rfl⟩)
    exact List.mem_map.mp hmm
  have hrestSorted : (filtered.drop start).Pairwise objDesc :=
    List.Pairwise.sublist (List.drop_sublist _ _) hfs
  have hcross20 : ∀ x ∈ (filtered.drop start).take batchSize,
      ∀ y ∈ (filtered.drop start).drop batchSize, objDesc x y := by
    have hsp := hrestSorted
    rw [← List.take_append_drop batchSize (filtered.drop start)] at hsp
    exact (List.pairwise_append.mp hsp).2.2
  have hdropped : filtered.drop (start + batchSize) =
      (filtered.drop start).drop batchSize :=
    (List.drop_drop batchSize start filtered).symm
  constructor
  · refine List.pairwise_append.mpr ⟨hsortedPrev, hrs, ?_⟩
    intro a ha b hb
    rcases hmemlm b hb with ⟨o, ho, he⟩
    show b.lastModified ≤ a.lastModified
    rw [← he]
    exact hdomPrev a ha o (List.mem_of_mem_take ho)
  · intro a ha o ho
    rw [hdropped] at ho
    rcases List.mem_append.mp ha with h | h
    · exact hdomPrev a h o (List.mem_of_mem_drop ho)
    · rcases hmemlm a h with ⟨o1, ho1, he⟩
      rw [← he]
      exact hcross20 o1 ho1 o ho

/-- The sortedness invariant carried by the gallery state within one
filter epoch: the listing is sorted, keys determine timestamps in the
filtered subset, the cache agrees with it, the retained images are
sorted, and every retained image is at least as recent as every record
not yet consumed by the page cursor. -/
def galleryInv (s : AppState) : Prop :=
  objectsSorted s.objects ∧
  keyDet (filterByDate s.objects s.selectedDate) ∧
  cacheAgrees s.cache (filterByDate s.objects s.selectedDate) ∧
  imagesSorted s.images ∧
  ∀ a ∈ s.images,
    ∀ o ∈ (filterByDate s.objects s.selectedDate).drop (s.page * batchSize),
      o.lastModified ≤ a.lastModified

/-- The initial load (run right after the reset, on page 1) establishes
the sortedness invariant: it replaces the retained images wholesale. -/
lemma fetchInitial_inv (probe : String → ProbeResult) (s : AppState)
    (hpage : s.page = 1)
    (hobj : objectsSorted s.objects)
    (hkd : keyDet (filterByDate s.objects s.selectedDate))
    (hag : cacheAgrees s.cache (filterByDate s.objects s.selectedDate)) :
    galleryInv (fetchInitialImages probe s) := by
  have hfs := filterByDate_sorted s.objects s.selectedDate hobj
  have hmain := append_slice_sorted probe (filterByDate s.objects s.selectedDate)
    s.cache [] 0 hfs hkd hag List.Pairwise.nil (fun a ha => absurd ha (List.not_mem_nil a))
  rw [List.drop_zero] at hmain
  simp only [galleryInv, fetchInitialImages]
  refine ⟨hobj, hkd, ?_, ?_, ?_⟩
  · exact fetchMetadata_cacheAgrees probe _ _ s.cache
      (fun o ho => List.mem_of_mem_take ho) hag hkd
  · simpa using hmain.1
  · intro a ha o ho
    rw [hpage, Nat.one_mul] at ho
    exact hmain.2 a (by simpa using ha) o (by simpa [Nat.zero_add] using ho)

/-- Each further page load preserves the sortedness invariant. -/
lemma loadMore_inv (probe : String → ProbeResult) (s : AppState)
    (h : galleryInv s) : galleryInv (loadMoreImages probe s) := by
  obtain ⟨hobj, hkd, hag, himg, hdom⟩ := h
  by_cases hg : (!s.hasMore || s.loading) = true
  · rw [loadMoreImages, if_pos hg]
    exact ⟨hobj, hkd, hag, himg, hdom⟩
  · have hfs := filterByDate_sorted s.objects s.selectedDate hobj
    have hbs : (s.page + 1) * batchSize - s.page * batchSize = batchSize := by
      simp only [batchSize]
      omega
    have harith : (s.page + 1) * batchSize = s.page * batchSize + batchSize :=
      Nat.succ_mul s.page batchSize
    have hmain := append_slice_sorted probe (filterByDate s.objects s.selectedDate)
      s.cache s.images (s.page * batchSize) hfs hkd hag himg hdom
    rw [loadMoreImages, if_neg hg]
    simp only [galleryInv, hbs]
    refine ⟨hobj, hkd, ?_, ?_, ?_⟩
    · exact fetchMetadata_cacheAgrees probe _ _ s.cache
        (fun o ho => List.mem_of_mem_drop (List.mem_of_mem_take ho)) hag hkd
    · exact hmain.1
    · intro a ha o ho
      rw [harith] at ho
      exact hmain.2 a ha o ho

/-- Claim C8: the gallery is always sorted by `lastModified` descending.
The sort of `fetchObjects` yields a descending pairwise-sorted listing
and is stable (any already-ordered subsequence of the input, in
particular any run of equal timestamps in listing order, survives as a
subsequence of the output); the initial page load establishes the
sortedness invariant on the retained images, and every subsequent
page-append preserves it. -/
theorem C8_sorted_invariant :
    (∀ l : List ObjectInfo, objectsSorted (sortByLastModifiedDesc l)) ∧
    (∀ l c : List ObjectInfo, c.Pairwise objDesc → c.Sublist l →
      c.Sublist (sortByLastModifiedDesc l)) ∧
    (∀ (probe : String → ProbeResult) (s : AppState),
      s.page = 1 → objectsSorted s.objects →
      keyDet (filterByDate s.objects s.selectedDate) →
      cacheAgrees s.cache (filterByDate s.objects s.selectedDate) →
      galleryInv (fetchInitialImages probe s) ∧
        imagesSorted (fetchInitialImages probe s).images) ∧
    (∀ (probe : String → ProbeResult) (s : AppState),
      galleryInv s →
      galleryInv (loadMoreImages probe s) ∧
        imagesSorted (loadMoreImages probe s).images) := by
  refine ⟨?_, ?_, ?_, ?_⟩
  · intro l
    exact List.sorted_insertionSort objDesc l
  · intro l c hc hsub
    exact List.sublist_insertionSort hc hsub
  · intro probe s hpage hobj hkd hag
    have h := fetchInitial_inv probe s hpage hobj hkd hag
    exact ⟨h, h.2.2.2.1⟩
  · intro probe s h
    have h2 := loadMore_inv probe s h
    exact ⟨h2, h2.2.2.2.1⟩

/-- A concrete sorted two-object state ready for a further load. -/
def sortedState : AppState := pagingState [⟨"b.jpg", 5⟩, ⟨"a.jpg", 3⟩] none 1

/-- Witness for claim C8: the invariant holds on a concrete sorted
state and is preserved by a concrete page load. -/
theorem C8_sorted_invariant_witness :
    galleryInv (loadMoreImages probeAll sortedState) ∧
    imagesSorted (loadMoreImages probeAll sortedState).images :=
  C8_sorted_invariant.2.2.2 probeAll sortedState
    ⟨by unfold objectsSorted; decide, by unfold keyDet; decide, cacheAgrees_nil _,
     List.Pairwise.nil, fun a ha => absurd ha (List.not_mem_nil a)⟩

end MinioGallery
